import Mathlib

/-!
Verification of the reinforcement-learning feedback agent
(`EnhancedRLAgent` in `rl_agent.py`) of the Automated Book Publication
Agent repository.

Modelling conventions:
* Python `str` is modelled by Lean `String`; character-level processing
  (regex splitting, stripping, counting) is done on `String.data`
  (`List Char`).
* Python floats are modelled by exact rationals `ℚ`.  The single
  exception is the feature `sentence_variety`, computed in Python as
  `np.std` (the square root of the variance): since the square root of a
  rational is irrational in general, we record the variance (the square
  of the value the code stores).  No claim below depends on the numeric
  value of this feature.
* Python `defaultdict(float)` dictionaries are modelled by insertion
  ordered association lists `List (String × ℚ)`: absent keys read as
  `0`, and `d[k] += v` updates the entry in place when present and
  appends `(k, v)` otherwise, exactly as a Python dict preserves
  insertion order.
* The `timestamp` (wall clock), `output_hash` (interpreter-salted string
  hash) and `metadata` fields of a feedback record are environment
  dependent and are not modelled; no claim mentions them.
* File persistence (`load_state` / `save_state`) is I/O and is outside
  the modelled state transitions; every claim is about the in-memory
  state.
-/

/-- Python whitespace characters, as recognised by `str.strip()` and
`str.split()`. -/
def isPySpace (c : Char) : Bool :=
  c = ' ' || c = '\t' || c = '\n' || c = '\r' || c = '\x0b' || c = '\x0c'

/-- Sentence-terminating characters: the class `[.!?]` of the regex
`re.split(r'[.!?]+', text)`. -/
def isSentenceEnd (c : Char) : Bool :=
  c = '.' || c = '!' || c = '?'

/-- Word characters of the regex class `\w` (ASCII fragment
`[a-zA-Z0-9_]`; Python's Unicode extension is irrelevant to the fixed
ASCII vocabularies matched below). -/
def isWordChar (c : Char) : Bool :=
  c.isAlphanum || c = '_'

/-- Split a character list at every character satisfying `p`, keeping
empty chunks (like `re.split` on a single-character class).  Splitting
on each separator individually and later discarding empty chunks agrees
with splitting on the one-or-more regex `[.!?]+`. -/
def splitChars (p : Char → Bool) : List Char → List (List Char)
  | [] => [[]]
  | c :: rest =>
    match splitChars p rest with
    | [] => if p c then [[], []] else [[c]]
    | s :: ss => if p c then [] :: s :: ss else (c :: s) :: ss

/-- Python `str.strip()`: remove leading and trailing whitespace. -/
def pyStrip (l : List Char) : List Char :=
  ((l.dropWhile isPySpace).reverse.dropWhile isPySpace).reverse

/-- Python `str.split()` with no argument: whitespace-delimited words,
empty chunks discarded. -/
def pyWords (l : List Char) : List (List Char) :=
  (splitChars isPySpace l).filter (fun w => !w.isEmpty)

/-- Python `sentences = [s.strip() for s in re.split(r'[.!?]+', text) if s.strip()]`. -/
def sentencesOf (l : List Char) : List (List Char) :=
  ((splitChars isSentenceEnd l).map pyStrip).filter (fun s => !s.isEmpty)

/-- Maximal runs of word characters: the tokens delimited by `\b` word
boundaries. -/
def wordTokens (l : List Char) : List (List Char) :=
  (splitChars (fun c => !isWordChar c) l).filter (fun w => !w.isEmpty)

/-- Python `str.lower()` (ASCII). -/
def pyLower (l : List Char) : List Char :=
  l.map Char.toLower

/-- Count of non-overlapping matches of the dialogue regex `"[^"]*"`:
scan left to right, pairing each opening quote with the next quote.
The `Bool` flag records whether a match is currently open. -/
def dialogueCountAux : List Char → Bool → ℕ
  | [], _ => 0
  | c :: rest, false =>
    if c = '"' then dialogueCountAux rest true else dialogueCountAux rest false
  | c :: rest, true =>
    if c = '"' then 1 + dialogueCountAux rest false else dialogueCountAux rest true

/-- Count `len(re.findall(r'"[^"]*"', text))`. -/
def dialogueCount (l : List Char) : ℕ :=
  dialogueCountAux l false

/-- The fixed adjective vocabulary of the descriptive-language regex. -/
def descriptiveVocab : List (List Char) :=
  ["beautiful".data, "vivid".data, "mysterious".data, "elegant".data,
   "powerful".data, "gentle".data, "fierce".data, "ancient".data,
   "modern".data, "complex".data]

/-- The fixed transition-word vocabulary. -/
def transitionVocab : List (List Char) :=
  ["however".data, "therefore".data, "meanwhile".data, "suddenly".data,
   "finally".data, "moreover".data, "consequently".data, "furthermore".data]

/-- Count `len(re.findall(r'\b(?:w1|...|wn)\b', text.lower()))`: a whole-word
match of an all-letter alternative is exactly a maximal word-character
run equal to one of the alternatives. -/
def vocabCount (vocab : List (List Char)) (l : List Char) : ℕ :=
  (wordTokens (pyLower l)).countP (fun t => vocab.contains t)

/-- Count `len(re.findall(r'\b\w{8,}\b', text))`: maximal word-character runs
of length at least 8. -/
def complexWordCount (l : List Char) : ℕ :=
  (wordTokens l).countP (fun t => 8 ≤ t.length)

/-- Python `text.split('\n\n')`: split on non-overlapping occurrences of
two consecutive newlines, scanning left to right. -/
def splitParagraphs : List Char → List (List Char)
  | [] => [[]]
  | '\n' :: '\n' :: rest => [] :: splitParagraphs rest
  | c :: rest =>
    match splitParagraphs rest with
    | [] => [[c]]
    | s :: ss => (c :: s) :: ss

/-- The mean `np.mean` of a list of naturals, as an exact rational (`0` on the
empty list, which the code never reaches on the lists it averages). -/
def meanQ (l : List ℕ) : ℚ :=
  (l.sum : ℚ) / l.length

/-- The variance of a list of naturals: the square of `np.std`.  See the
modelling note in the file header — `np.std` itself is the (generally
irrational) square root of this quantity. -/
def varianceQ (l : List ℕ) : ℚ :=
  ((l.map (fun x => ((x : ℚ) - meanQ l) ^ 2)).sum) / l.length

/-- Number of whitespace-delimited words, `len(s.split())`. -/
def wordCount (l : List Char) : ℕ :=
  (pyWords l).length

/-- The word counts of the non-blank paragraphs,
`[len(p.split()) for p in text.split('\n\n') if p.strip()]`. -/
def paragraphWordCounts (l : List Char) : List ℕ :=
  (((splitParagraphs l).filter (fun p => !(pyStrip p).isEmpty)).map wordCount)

/-- Method `EnhancedRLAgent.extract_text_patterns`: the feature map extracted
from a text, in the insertion order of the Python dict.  Returns the
empty map when the text has no (stripped, non-empty) sentences. -/
def extract_text_patterns (text : String) : List (String × ℚ) :=
  let l := text.data
  let sents := sentencesOf l
  if sents.isEmpty then []
  else
    let sentLens := sents.map wordCount
    [("avg_sentence_length", meanQ sentLens),
     ("sentence_variety", varianceQ sentLens),
     ("dialogue_density",
        if sents.isEmpty then 0 else (dialogueCount l : ℚ) / sents.length),
     ("descriptive_density",
        if (pyWords l).isEmpty then 0
        else (vocabCount descriptiveVocab l : ℚ) / (pyWords l).length),
     ("transition_density",
        if sents.isEmpty then 0 else (vocabCount transitionVocab l : ℚ) / sents.length),
     ("avg_paragraph_length", meanQ (paragraphWordCounts l)),
     ("complexity_score",
        if (pyWords l).isEmpty then 0
        else (complexWordCount l : ℚ) / (pyWords l).length)]

/-- Read a key from a `defaultdict(float)` association list: absent keys
read as `0`. -/
def dictGet (d : List (String × ℚ)) (k : String) : ℚ :=
  match d.find? (fun p => p.1 = k) with
  | some p => p.2
  | none => 0

/-- Write `d[k] += v` on a `defaultdict(float)`: update the entry in place
when the key is present, append `(k, v)` otherwise (Python dicts
preserve insertion order and append new keys at the end). -/
def dictAdd (d : List (String × ℚ)) (k : String) (v : ℚ) : List (String × ℚ) :=
  if d.any (fun p => p.1 = k) then
    d.map (fun p => if p.1 = k then (p.1, p.2 + v) else p)
  else d ++ [(k, v)]

/-- One feedback record, as appended to `feedback_history`
(the environment-dependent `timestamp`, `output_hash` and `metadata`
fields are not modelled). -/
structure FeedbackRecord where
  rating : String
  style_preference : String
  focus_areas : List String
  text_patterns : List (String × ℚ)
  word_count : ℕ
  deriving Repr, DecidableEq

/-- One snapshot appended to `successful_patterns` on a Good rating
(the `timestamp` field is not modelled). -/
structure SuccessRecord where
  patterns : List (String × ℚ)
  style : String
  focus_areas : List String
  deriving Repr, DecidableEq

/-- The mutable state of `EnhancedRLAgent` (`self.state`). -/
structure AgentState where
  feedback_history : List FeedbackRecord
  pattern_weights : List (String × ℚ)
  style_preferences : List (String × ℚ)
  focus_area_effectiveness : List (String × ℚ)
  successful_patterns : List SuccessRecord
  total_feedback : ℕ
  good_feedback_count : ℕ
  deriving Repr, DecidableEq

/-- The empty state, as built by `__init__` and `reset_learning`. -/
def initialState : AgentState :=
  { feedback_history := []
    pattern_weights := []
    style_preferences := []
    focus_area_effectiveness := []
    successful_patterns := []
    total_feedback := 0
    good_feedback_count := 0 }

/-- Python `l[-n:]`: the last `n` elements of a list. -/
def takeLast (n : ℕ) (l : List α) : List α :=
  l.drop (l.length - n)

/-- The feedback record built at the top of `update`. -/
def mkFeedbackRecord (rating output style_preference : String)
    (focus_areas : List String) : FeedbackRecord :=
  { rating := rating
    style_preference := style_preference
    focus_areas := focus_areas
    text_patterns := extract_text_patterns output
    word_count := wordCount output.data }

/-- Method `EnhancedRLAgent.update`: append the feedback record, bump the
counters, apply the signed learning rule (`rating_weight = 1.0` for
`"Good"`, `-0.5` otherwise; the non-Good branch is further damped by
`0.5`), record a success snapshot on Good ratings, and cap
`successful_patterns` at 50 and `feedback_history` at 100 entries,
evicting oldest first. -/
def update (st : AgentState) (rating output : String)
    (style_preference : String) (focus_areas : List String) : AgentState :=
  let text_patterns : List (String × ℚ) := extract_text_patterns output
  let record := mkFeedbackRecord rating output style_preference focus_areas
  let st1 := { st with
    feedback_history := st.feedback_history ++ [record]
    total_feedback := st.total_feedback + 1 }
  let rating_weight : ℚ := if rating = "Good" then 1 else -(1/2)
  let st2 :=
    if rating = "Good" then
      { st1 with
        good_feedback_count := st1.good_feedback_count + 1
        pattern_weights :=
          text_patterns.foldl
            (fun d (p : String × ℚ) => dictAdd d p.1 (rating_weight * p.2))
            st1.pattern_weights
        style_preferences :=
          dictAdd st1.style_preferences style_preference rating_weight
        focus_area_effectiveness :=
          focus_areas.foldl
            (fun d a => dictAdd d a rating_weight) st1.focus_area_effectiveness
        successful_patterns :=
          st1.successful_patterns ++
            [({ patterns := text_patterns, style := style_preference,
                focus_areas := focus_areas } : SuccessRecord)] }
    else
      { st1 with
        pattern_weights :=
          text_patterns.foldl
            (fun d (p : String × ℚ) => dictAdd d p.1 (rating_weight * p.2 * (1/2)))
            st1.pattern_weights
        style_preferences :=
          dictAdd st1.style_preferences style_preference (rating_weight * (1/2))
        focus_area_effectiveness :=
          focus_areas.foldl
            (fun d a => dictAdd d a (rating_weight * (1/2))) st1.focus_area_effectiveness }
  let st3 := { st2 with
    successful_patterns :=
      if 50 < st2.successful_patterns.length
      then takeLast 50 st2.successful_patterns
      else st2.successful_patterns }
  { st3 with
    feedback_history :=
      if 100 < st3.feedback_history.length
      then takeLast 100 st3.feedback_history
      else st3.feedback_history }

/-- Method `EnhancedRLAgent.reset_learning`: back to the empty state. -/
def reset_learning (_st : AgentState) : AgentState := initialState

/-- Python `max(items, key=lambda x: x[1])` on an association list:
the first entry carrying the maximal value (Python's `max` keeps the
earlier element on ties). -/
def maxByVal : List (String × ℚ) → Option (String × ℚ)
  | [] => none
  | x :: xs => some (xs.foldl (fun b y => if b.2 < y.2 then y else b) x)

/-- Insert an entry into a list sorted by decreasing value, after all
entries whose value is at least as large. -/
def insertDesc (x : String × ℚ) : List (String × ℚ) → List (String × ℚ)
  | [] => [x]
  | y :: ys => if y.2 < x.2 then x :: y :: ys else y :: insertDesc x ys

/-- Python `sorted(items, key=lambda x: x[1], reverse=True)`: stable
sort by decreasing value (ties keep their original order). -/
def sortDescByVal (l : List (String × ℚ)) : List (String × ℚ) :=
  l.foldl (fun acc x => insertDesc x acc) []

/-- A learning insight, as assembled by `get_smart_suggestions`
(the Python code renders each to a formatted string; the string
formatting of floats is not modelled). -/
inductive Insight
  | stylePerformsBest (style : String) (weight : ℚ)
  | effectiveFocusAreas (areas : List (String × ℚ))
  | successfulPattern (pattern : String) (weight : ℚ)
  deriving Repr, DecidableEq

/-- The result of `get_smart_suggestions`. -/
structure Suggestion where
  recommended_style : String
  recommended_focus_areas : List String
  confidence_score : ℚ
  success_rate : ℚ
  total_feedback : ℕ
  learning_insights : List Insight
  deriving Repr, DecidableEq

/-- Method `EnhancedRLAgent.get_smart_suggestions`. -/
def get_smart_suggestions (st : AgentState) : Suggestion :=
  let base : Suggestion :=
    { recommended_style := "modern"
      recommended_focus_areas := ["grammar", "clarity", "flow"]
      confidence_score := 0
      success_rate := 0
      total_feedback := st.total_feedback
      learning_insights := [] }
  if st.total_feedback = 0 then base
  else
    let s1 := { base with
      success_rate := (st.good_feedback_count : ℚ) / st.total_feedback * 100 }
    let s2 :=
      if st.style_preferences.isEmpty then s1
      else
        match maxByVal st.style_preferences with
        | none => s1
        | some best =>
          if 0 < best.2 then
            { s1 with recommended_style := best.1
                      confidence_score := min (best.2 / 5) 1 }
          else s1
    let s3 :=
      if st.focus_area_effectiveness.isEmpty then s2
      else
        let effective_areas := sortDescByVal st.focus_area_effectiveness
        let positive_areas := (effective_areas.filter (fun p => 0 < p.2)).map (·.1)
        if positive_areas.isEmpty then s2
        else { s2 with recommended_focus_areas := positive_areas.take 3 }
    let insights₁ : List Insight :=
      if st.style_preferences.isEmpty then []
      else
        match (sortDescByVal st.style_preferences).head? with
        | some top => if 0 < top.2 then [.stylePerformsBest top.1 top.2] else []
        | none => []
    let insights₂ : List Insight :=
      if st.focus_area_effectiveness.isEmpty then []
      else
        let top_focus :=
          ((sortDescByVal st.focus_area_effectiveness).take 3).filter (fun p => 0 < p.2)
        if top_focus.isEmpty then [] else [.effectiveFocusAreas top_focus]
    let insights₃ : List Insight :=
      if st.pattern_weights.isEmpty then []
      else
        match (sortDescByVal st.pattern_weights).head? with
        | some top => if 0 < top.2 then [.successfulPattern top.1 top.2] else []
        | none => []
    { s3 with learning_insights := insights₁ ++ insights₂ ++ insights₃ }

/-- The instruction emitted by the style rule of
`get_adaptive_prompt_instructions` for the best style `s`. -/
def styleLine (s : String) : String :=
  "Focus on " ++ s ++ " writing style as it has shown high user satisfaction."

/-- The canned instruction lines of the pattern rule. -/
def sentenceLengthLine : String :=
  "Use varied sentence lengths with a preference for medium-length sentences."

def dialogueLine : String :=
  "Include natural dialogue when appropriate to enhance engagement."

def descriptiveLine : String :=
  "Use rich, descriptive language to create vivid imagery."

def transitionLine : String :=
  "Use smooth transitions between ideas and paragraphs."

/-- The canned instruction lines of the focus-area rule. -/
def engagementLine : String :=
  "Prioritize reader engagement and compelling narrative flow."

def styleFocusLine : String :=
  "Pay special attention to consistent and polished writing style."

def grammarLine : String :=
  "Thoroughly review grammar and punctuation errors."

def clarityLine : String :=
  "Ensure exceptional clarity and readability."

def flowLine : String :=
  "Optimize paragraph and sentence flow for smooth reading."

/-- The canned instruction lines of the success-rate rule. -/
def continueLine : String :=
  "Continue with the current approach as it's achieving high user satisfaction."

def fundamentalsLine : String :=
  "Focus on fundamental quality improvements based on user feedback patterns."

/-- Style-based instructions: the first `instructions.append` block of
`get_adaptive_prompt_instructions`. -/
def styleInstructions (st : AgentState) : List String :=
  if st.style_preferences.isEmpty then []
  else
    match maxByVal st.style_preferences with
    | none => []
    | some best => if 0 < best.2 then [styleLine best.1] else []

/-- Pattern-based instructions: the single top-weighted positive pattern
is matched against the four known feature names. -/
def patternInstructions (st : AgentState) : List String :=
  if st.pattern_weights.isEmpty then []
  else
    let positive_patterns := st.pattern_weights.filter (fun p => 0 < p.2)
    if positive_patterns.isEmpty then []
    else
      match (sortDescByVal positive_patterns).head? with
      | none => []
      | some top_pattern =>
        if top_pattern.1 = "avg_sentence_length" then
          if 2 < top_pattern.2 then [sentenceLengthLine] else []
        else if top_pattern.1 = "dialogue_density" then
          if 1 < top_pattern.2 then [dialogueLine] else []
        else if top_pattern.1 = "descriptive_density" then
          if 1 < top_pattern.2 then [descriptiveLine] else []
        else if top_pattern.1 = "transition_density" then
          if 1 < top_pattern.2 then [transitionLine] else []
        else []

/-- Focus-area instructions, dispatched on the agent type. -/
def focusInstructions (st : AgentState) (agent_type : String) : List String :=
  if st.focus_area_effectiveness.isEmpty then []
  else
    let effective_areas := st.focus_area_effectiveness.filter (fun p => 0 < p.2)
    if effective_areas.isEmpty then []
    else
      let top_areas := ((sortDescByVal effective_areas).take 3).map (·.1)
      if agent_type = "writer" then
        (if top_areas.contains "engagement" then [engagementLine] else []) ++
        (if top_areas.contains "style" then [styleFocusLine] else [])
      else if agent_type = "reviewer" then
        (if top_areas.contains "grammar" then [grammarLine] else []) ++
        (if top_areas.contains "clarity" then [clarityLine] else []) ++
        (if top_areas.contains "flow" then [flowLine] else [])
      else []

/-- The success rate `good_feedback_count / total_feedback * 100`
used by `get_adaptive_prompt_instructions` and friends. -/
def successRate (st : AgentState) : ℚ :=
  (st.good_feedback_count : ℚ) / st.total_feedback * 100

/-- Success-rate instructions: strictly above 70 or strictly below 50. -/
def successInstructions (st : AgentState) : List String :=
  if 70 < successRate st then [continueLine]
  else if successRate st < 50 then [fundamentalsLine]
  else []

/-- The full ordered instruction list assembled by
`get_adaptive_prompt_instructions` (before joining into one string). -/
def instructionList (st : AgentState) (agent_type : String) : List String :=
  styleInstructions st ++ patternInstructions st ++
    focusInstructions st agent_type ++ successInstructions st

/-- Python `"\n".join(lines)`. -/
def joinLines : List String → String
  | [] => ""
  | [x] => x
  | x :: y :: rest => x ++ "\n" ++ joinLines (y :: rest)

/-- Method `EnhancedRLAgent.get_adaptive_prompt_instructions`: empty string
below three pieces of feedback, otherwise the bullet list of the fired
rules. -/
def get_adaptive_prompt_instructions (st : AgentState) (agent_type : String) : String :=
  if st.total_feedback < 3 then ""
  else joinLines ((instructionList st agent_type).map (fun i => "- " ++ i))

/-! ### Call sequences -/

/-- The arguments of one `update` call. -/
structure UpdCall where
  rating : String
  output : String
  style : String
  focus : List String
  deriving Repr, DecidableEq

def applyUpd (st : AgentState) (c : UpdCall) : AgentState :=
  update st c.rating c.output c.style c.focus

/-- Run a sequence of `update` calls from the empty state. -/
def runUpdates (cs : List UpdCall) : AgentState :=
  cs.foldl applyUpd initialState

/-- The feedback record produced by one call. -/
def recordOf (c : UpdCall) : FeedbackRecord :=
  mkFeedbackRecord c.rating c.output c.style c.focus

/-- The success snapshot produced by one Good call. -/
def snapOf (c : UpdCall) : SuccessRecord :=
  { patterns := extract_text_patterns c.output
    style := c.style
    focus_areas := c.focus }

/-- The snapshots of the Good-rated calls of a sequence, in order. -/
def goodSnapshots (cs : List UpdCall) : List SuccessRecord :=
  (cs.filter (fun c => c.rating = "Good")).map snapOf

/-- An operation on the agent: an `update` call or `reset_learning`. -/
inductive AgentOp where
  | updCall (c : UpdCall)
  | resetCall
  deriving Repr, DecidableEq

def applyOp (st : AgentState) : AgentOp → AgentState
  | .updCall c => applyUpd st c
  | .resetCall => reset_learning st

/-- Run a sequence of operations from the empty state. -/
def runOps (ops : List AgentOp) : AgentState :=
  ops.foldl applyOp initialState

/-- Number of `update` calls since the last reset (all of them when no
reset occurs). -/
def updatesSinceReset (ops : List AgentOp) : ℕ :=
  ops.foldl (fun n op => match op with | .updCall _ => n + 1 | .resetCall => 0) 0

def goodCall : UpdCall :=
  { rating := "Good", output := "", style := "modern", focus := [] }

/-- The state of C6's concrete instance: style weights
`{"modern": 2.0, "classic": -1.0}` and one piece of feedback. -/
def styleDemoState : AgentState :=
  { initialState with
    style_preferences := [("modern", 2), ("classic", -1)]
    total_feedback := 1
    good_feedback_count := 1 }

set_option maxRecDepth 8192

/-- Substring containment: `sub` occurs as a contiguous substring of `s`. -/
def strContains (s sub : String) : Prop :=
  sub.data <:+: s.data

/-- The common tail of every style-rule line. -/
def styleLineTail : String :=
  " writing style as it has shown high user satisfaction."

/-- The state of C5's boundary instance: 7 Good out of 10, success rate
exactly 70. -/
def bandDemoState : AgentState :=
  { initialState with total_feedback := 10, good_feedback_count := 7 }

/-- Three Good updates with style "classic" and focus area "grammar"
from the empty state (the output texts are arbitrary). -/
def threeGoodClassic (o1 o2 o3 : String) : AgentState :=
  update (update (update initialState "Good" o1 "classic" ["grammar"])
    "Good" o2 "classic" ["grammar"]) "Good" o3 "classic" ["grammar"]

/-- The state refuting C3: an unknown feature (`complexity_score`)
carries the highest positive weight while `avg_sentence_length` is the
highest-weighted KNOWN feature, above its threshold. -/
def patternDemoState : AgentState :=
  { initialState with
    pattern_weights := [("complexity_score", 10), ("avg_sentence_length", 5)]
    total_feedback := 3
    good_feedback_count := 3 }

/-- The state of the C3 witness: `avg_sentence_length` is itself the
global top positive pattern, above its threshold. -/
def sentenceDemoState : AgentState :=
  { initialState with
    pattern_weights := [("avg_sentence_length", 5)]
    total_feedback := 3
    good_feedback_count := 3 }

/-! ### Association-list lemmas -/

theorem dictGet_cons_self {x : String × ℚ} {d : List (String × ℚ)} {k : String}
    (h : x.1 = k) : dictGet (x :: d) k = x.2 := by
  simp [dictGet, List.find?_cons_of_pos, h]

theorem dictGet_cons_ne {x : String × ℚ} {d : List (String × ℚ)} {k : String}
    (h : ¬ x.1 = k) : dictGet (x :: d) k = dictGet d k := by
  simp [dictGet, List.find?_cons_of_neg, h]

/-- Reading back the key just bumped: `d[k] += v` adds exactly `v`. -/
theorem dictGet_dictAdd_self (d : List (String × ℚ)) (k : String) (v : ℚ) :
    dictGet (dictAdd d k v) k = dictGet d k + v := by
  induction d with
  | nil => simp [dictGet, dictAdd]
  | cons x d ih =>
    by_cases hx : x.1 = k
    · have hany : (x :: d).any (fun p => p.1 = k) = true := by
        simp [List.any_cons, hx]
      rw [dictAdd, if_pos hany, List.map_cons, if_pos hx,
        dictGet_cons_self (x := (x.1, x.2 + v)) hx, dictGet_cons_self hx]
    · have hmain : dictAdd (x :: d) k v = x :: dictAdd d k v := by
        by_cases hd : d.any (fun p => p.1 = k) = true
        · have hany : (x :: d).any (fun p => p.1 = k) = true := by
            simp [List.any_cons, hd]
          rw [dictAdd, if_pos hany, List.map_cons, if_neg hx, dictAdd, if_pos hd]
        · have hany : ¬ (x :: d).any (fun p => p.1 = k) = true := by
            simp only [List.any_cons, Bool.or_eq_true, decide_eq_true_eq]
            push_neg
            exact ⟨hx, by simpa using hd⟩
          rw [dictAdd, if_neg hany, List.cons_append, dictAdd, if_neg hd]
      rw [hmain, dictGet_cons_ne hx, dictGet_cons_ne hx, ih]

/-- Bumping key `k` leaves every other key unchanged. -/
theorem dictGet_dictAdd_ne (d : List (String × ℚ)) (k : String) (v : ℚ)
    (k' : String) (h : ¬ k' = k) :
    dictGet (dictAdd d k v) k' = dictGet d k' := by
  induction d with
  | nil =>
    have hks : ¬ k = k' := fun hh => h hh.symm
    simp [dictGet, dictAdd, hks]
  | cons x d ih =>
    by_cases hx : x.1 = k
    · have hany : (x :: d).any (fun p => p.1 = k) = true := by
        simp [List.any_cons, hx]
      have hxk' : ¬ x.1 = k' := fun hh => h (hh.symm.trans hx)
      rw [dictAdd, if_pos hany, List.map_cons, if_pos hx,
        dictGet_cons_ne (by simpa using hxk'), dictGet_cons_ne hxk']
      -- remaining: the mapped tail reads the same at k'
      clear hany ih
      induction d with
      | nil => rfl
      | cons y d ihd =>
        by_cases hy : y.1 = k
        · have hyk' : ¬ y.1 = k' := fun hh => h (hh.symm.trans hy)
          rw [List.map_cons, if_pos hy, dictGet_cons_ne (by simpa using hyk'),
            dictGet_cons_ne hyk', ihd]
        · rw [List.map_cons, if_neg hy]
          by_cases hyk' : y.1 = k'
          · rw [dictGet_cons_self hyk', dictGet_cons_self hyk']
          · rw [dictGet_cons_ne hyk', dictGet_cons_ne hyk', ihd]
    · have hmain : dictAdd (x :: d) k v = x :: dictAdd d k v := by
        by_cases hd : d.any (fun p => p.1 = k) = true
        · have hany : (x :: d).any (fun p => p.1 = k) = true := by
            simp [List.any_cons, hd]
          rw [dictAdd, if_pos hany, List.map_cons, if_neg hx, dictAdd, if_pos hd]
        · have hany : ¬ (x :: d).any (fun p => p.1 = k) = true := by
            simp only [List.any_cons, Bool.or_eq_true, decide_eq_true_eq]
            push_neg
            exact ⟨hx, by simpa using hd⟩
          rw [dictAdd, if_neg hany, List.cons_append, dictAdd, if_neg hd]
      by_cases hxk' : x.1 = k'
      · rw [hmain, dictGet_cons_self hxk', dictGet_cons_self hxk']
      · rw [hmain, dictGet_cons_ne hxk', dictGet_cons_ne hxk', ih]

/-- Folding `d[a] += c` over a list of areas adds `c` once per
occurrence of the key in the list. -/
theorem dictGet_foldl_const (l : List String) (c : ℚ)
    (d : List (String × ℚ)) (k : String) :
    dictGet (l.foldl (fun d a => dictAdd d a c) d) k
      = dictGet d k + (l.count k : ℚ) * c := by
  induction l generalizing d with
  | nil => simp
  | cons a l ih =>
    rw [List.foldl_cons, ih]
    by_cases ha : a = k
    · subst ha
      rw [dictGet_dictAdd_self, List.count_cons_self]
      push_cast
      ring
    · rw [dictGet_dictAdd_ne _ _ _ _ (fun hh => ha hh.symm),
        List.count_cons_of_ne (fun hh => ha hh.symm)]

/-- Folding `d[p.1] += g p.2` over an association list adds, at each
key, the sum of `g` over the matching entries. -/
theorem dictGet_foldl_pairs (ps : List (String × ℚ)) (g : ℚ → ℚ)
    (d : List (String × ℚ)) (k : String) :
    dictGet (ps.foldl (fun d (p : String × ℚ) => dictAdd d p.1 (g p.2)) d) k
      = dictGet d k + ((ps.filter (fun p => p.1 = k)).map (fun p => g p.2)).sum := by
  induction ps generalizing d with
  | nil => simp
  | cons p ps ih =>
    rw [List.foldl_cons, ih]
    by_cases hp : p.1 = k
    · rw [hp, dictGet_dictAdd_self]
      rw [List.filter_cons_of_pos (by simpa using hp), List.map_cons, List.sum_cons]
      ring
    · rw [dictGet_dictAdd_ne _ _ _ _ (fun hh => hp hh.symm),
        List.filter_cons_of_neg (by simpa using hp)]

/-! ### Field-level characterization of `update` -/

theorem update_total_feedback (st : AgentState) (r o s : String) (f : List String) :
    (update st r o s f).total_feedback = st.total_feedback + 1 := by
  unfold update
  by_cases hr : r = "Good" <;> simp [hr]

theorem update_good_count (st : AgentState) (r o s : String) (f : List String) :
    (update st r o s f).good_feedback_count
      = st.good_feedback_count + (if r = "Good" then 1 else 0) := by
  unfold update
  by_cases hr : r = "Good" <;> simp [hr]

theorem update_style_preferences (st : AgentState) (r o s : String) (f : List String) :
    (update st r o s f).style_preferences
      = dictAdd st.style_preferences s (if r = "Good" then 1 else -(1/2) * (1/2)) := by
  unfold update
  by_cases hr : r = "Good" <;> simp [hr]

theorem update_pattern_weights_good (st : AgentState) (o s : String) (f : List String) :
    (update st "Good" o s f).pattern_weights
      = (extract_text_patterns o).foldl
          (fun d (p : String × ℚ) => dictAdd d p.1 (1 * p.2)) st.pattern_weights := by
  unfold update
  simp

theorem update_pattern_weights_notGood (st : AgentState) (r o s : String)
    (f : List String) (hr : ¬ r = "Good") :
    (update st r o s f).pattern_weights
      = (extract_text_patterns o).foldl
          (fun d (p : String × ℚ) => dictAdd d p.1 (-(1/2) * p.2 * (1/2)))
          st.pattern_weights := by
  unfold update
  simp [hr]

theorem update_focus_good (st : AgentState) (o s : String) (f : List String) :
    (update st "Good" o s f).focus_area_effectiveness
      = f.foldl (fun d a => dictAdd d a 1) st.focus_area_effectiveness := by
  unfold update
  simp

theorem update_focus_notGood (st : AgentState) (r o s : String)
    (f : List String) (hr : ¬ r = "Good") :
    (update st r o s f).focus_area_effectiveness
      = f.foldl (fun d a => dictAdd d a (-(1/2) * (1/2))) st.focus_area_effectiveness := by
  unfold update
  simp [hr]

theorem update_feedback_history (st : AgentState) (r o s : String) (f : List String) :
    (update st r o s f).feedback_history
      = (let h := st.feedback_history ++ [mkFeedbackRecord r o s f]
         if 100 < h.length then takeLast 100 h else h) := by
  unfold update
  by_cases hr : r = "Good" <;> simp [hr]

theorem update_successful_good (st : AgentState) (o s : String) (f : List String) :
    (update st "Good" o s f).successful_patterns
      = (let l := st.successful_patterns ++
           [({ patterns := extract_text_patterns o, style := s,
               focus_areas := f } : SuccessRecord)]
         if 50 < l.length then takeLast 50 l else l) := by
  unfold update
  simp

theorem update_successful_notGood (st : AgentState) (r o s : String)
    (f : List String) (hr : ¬ r = "Good") :
    (update st r o s f).successful_patterns
      = (if 50 < st.successful_patterns.length
         then takeLast 50 st.successful_patterns
         else st.successful_patterns) := by
  unfold update
  simp [hr]

/-! ### `takeLast` (Python `l[-n:]`) lemmas -/

theorem takeLast_of_le {l : List α} {n : ℕ} (h : l.length ≤ n) :
    takeLast n l = l := by
  unfold takeLast
  rw [Nat.sub_eq_zero_of_le h, List.drop_zero]

theorem takeLast_length_le (n : ℕ) (l : List α) : (takeLast n l).length ≤ n := by
  unfold takeLast
  rw [List.length_drop]
  omega

/-- Capping after each append agrees with capping once at the end. -/
theorem takeLast_append_one (n : ℕ) (l : List α) (x : α) :
    takeLast n (takeLast n l ++ [x]) = takeLast n (l ++ [x]) := by
  rcases le_or_lt l.length n with h | h
  · rw [takeLast_of_le h]
  · have hm : l.length - n ≤ l.length := Nat.sub_le _ _
    unfold takeLast
    rw [← List.drop_append_of_le_length hm, List.drop_drop]
    congr 1
    simp only [List.length_drop, List.length_append, List.length_cons,
      List.length_nil]
    omega

/-- The cap `if n < len(l) then l[-n:] else l` written in `update` is
just `l[-n:]`. -/
theorem cap_eq_takeLast (n : ℕ) (l : List α) :
    (if n < l.length then takeLast n l else l) = takeLast n l := by
  by_cases h : n < l.length
  · rw [if_pos h]
  · rw [if_neg h, takeLast_of_le (by omega)]

/-- Running characterization of `feedback_history`: it is always the
last 100 of all records produced so far. -/
theorem feedback_history_run (cs : List UpdCall) :
    ∀ (st : AgentState) (L : List FeedbackRecord),
      st.feedback_history = takeLast 100 L →
      (cs.foldl applyUpd st).feedback_history
        = takeLast 100 (L ++ cs.map recordOf) := by
  induction cs with
  | nil => intro st L h; simpa using h
  | cons c cs ih =>
    intro st L h
    rw [List.foldl_cons]
    have hstep : (applyUpd st c).feedback_history = takeLast 100 (L ++ [recordOf c]) := by
      rw [applyUpd, update_feedback_history]
      show (if 100 < (st.feedback_history ++ [recordOf c]).length
            then takeLast 100 (st.feedback_history ++ [recordOf c])
            else st.feedback_history ++ [recordOf c])
          = takeLast 100 (L ++ [recordOf c])
      rw [cap_eq_takeLast, h, takeLast_append_one]
    rw [ih _ _ hstep, List.map_cons]
    congr 1
    simp

/-- Running characterization of `successful_patterns`: it is always the
last 50 of the snapshots of the Good-rated calls so far. -/
theorem successful_patterns_run (cs : List UpdCall) :
    ∀ (st : AgentState) (G : List SuccessRecord),
      st.successful_patterns = takeLast 50 G →
      (cs.foldl applyUpd st).successful_patterns
        = takeLast 50 (G ++ goodSnapshots cs) := by
  induction cs with
  | nil => intro st G h; simpa [goodSnapshots] using h
  | cons c cs ih =>
    intro st G h
    rw [List.foldl_cons]
    by_cases hr : c.rating = "Good"
    · have hstep : (applyUpd st c).successful_patterns
          = takeLast 50 (G ++ [snapOf c]) := by
        rw [applyUpd, hr, update_successful_good]
        show (if 50 < (st.successful_patterns ++ [snapOf c]).length
              then takeLast 50 (st.successful_patterns ++ [snapOf c])
              else st.successful_patterns ++ [snapOf c])
            = takeLast 50 (G ++ [snapOf c])
        rw [cap_eq_takeLast, h, takeLast_append_one]
      rw [ih _ _ hstep]
      have hg : goodSnapshots (c :: cs) = snapOf c :: goodSnapshots cs := by
        rw [goodSnapshots, List.filter_cons_of_pos (by simpa using hr), List.map_cons]
        rfl
      rw [hg]
      congr 1
      simp
    · have hstep : (applyUpd st c).successful_patterns = takeLast 50 G := by
        rw [applyUpd, update_successful_notGood _ _ _ _ _ hr, cap_eq_takeLast, h,
          takeLast_of_le (takeLast_length_le _ _)]
      have : goodSnapshots (c :: cs) = goodSnapshots cs := by
        rw [goodSnapshots, List.filter_cons_of_neg (by simpa using hr)]
        rfl
      rw [ih _ _ hstep, this]

/-! ### The learning rule, key by key -/

theorem extract_keys_nodup (o : String) :
    ((extract_text_patterns o).map (fun p => p.1)).Nodup := by
  rw [extract_text_patterns]
  by_cases h : (sentencesOf o.data).isEmpty
  · simp [h]
  · rw [Bool.not_eq_true] at h
    simp only [h, Bool.false_eq_true, if_false, List.map_cons, List.map_nil]
    decide

theorem filter_key_eq_singleton {ps : List (String × ℚ)}
    (hnd : (ps.map (fun p => p.1)).Nodup) {p : String × ℚ} (hp : p ∈ ps) :
    ps.filter (fun q => q.1 = p.1) = [p] := by
  induction ps with
  | nil => cases hp
  | cons q ps ih =>
    rw [List.map_cons, List.nodup_cons] at hnd
    rcases List.mem_cons.1 hp with rfl | hp'
    · rw [List.filter_cons_of_pos (by simp)]
      have hnone : ∀ r ∈ ps, ¬ (r.1 = p.1) := by
        intro r hr hrp
        exact hnd.1 (hrp ▸ List.mem_map_of_mem (fun p => p.1) hr)
      rw [List.filter_eq_nil_iff.2 (by simpa using hnone)]
    · have hq : ¬ (q.1 = p.1) := by
        intro hqp
        exact hnd.1 (hqp ▸ List.mem_map_of_mem (fun p => p.1) hp')
      rw [List.filter_cons_of_neg (by simpa using hq), ih hnd.2 hp']

theorem sum_map_scaled (l : List (String × ℚ)) (c : ℚ) :
    ((l.map (fun q => c * q.2)).sum) = c * ((l.map (fun q => q.2)).sum) := by
  induction l with
  | nil => simp
  | cons q l ih => simp [ih]; ring

/-- Good rating: each extracted feature's value is added (scaled by
`rating_weight = 1`) to its pattern weight. -/
theorem pattern_weight_good (st : AgentState) (o s : String) (f : List String)
    {p : String × ℚ} (hp : p ∈ extract_text_patterns o) :
    dictGet (update st "Good" o s f).pattern_weights p.1
      = dictGet st.pattern_weights p.1 + 1 * p.2 := by
  rw [update_pattern_weights_good,
    dictGet_foldl_pairs (extract_text_patterns o) (fun v => 1 * v),
    filter_key_eq_singleton (extract_keys_nodup o) hp]
  simp

/-- Non-Good rating: each extracted feature's value is scaled by
`rating_weight * 0.5 = -0.25` before being added. -/
theorem pattern_weight_notGood (st : AgentState) (r o s : String) (f : List String)
    (hr : ¬ r = "Good") {p : String × ℚ} (hp : p ∈ extract_text_patterns o) :
    dictGet (update st r o s f).pattern_weights p.1
      = dictGet st.pattern_weights p.1 + -(1/4) * p.2 := by
  rw [update_pattern_weights_notGood _ _ _ _ _ hr,
    dictGet_foldl_pairs (extract_text_patterns o) (fun v => -(1/2) * v * (1/2)),
    filter_key_eq_singleton (extract_keys_nodup o) hp]
  simp
  ring

theorem style_weight_good (st : AgentState) (o s : String) (f : List String) :
    dictGet (update st "Good" o s f).style_preferences s
      = dictGet st.style_preferences s + 1 := by
  rw [update_style_preferences]
  simp [dictGet_dictAdd_self]

theorem style_weight_notGood (st : AgentState) (r o s : String) (f : List String)
    (hr : ¬ r = "Good") :
    dictGet (update st r o s f).style_preferences s
      = dictGet st.style_preferences s + -(1/4) := by
  rw [update_style_preferences]
  rw [if_neg hr, dictGet_dictAdd_self]
  norm_num

theorem focus_weight_good (st : AgentState) (o s : String) (f : List String)
    (hf : f.Nodup) {a : String} (ha : a ∈ f) :
    dictGet (update st "Good" o s f).focus_area_effectiveness a
      = dictGet st.focus_area_effectiveness a + 1 := by
  rw [update_focus_good, dictGet_foldl_const, List.count_eq_one_of_mem hf ha]
  norm_num

theorem focus_weight_notGood (st : AgentState) (r o s : String) (f : List String)
    (hr : ¬ r = "Good") (hf : f.Nodup) {a : String} (ha : a ∈ f) :
    dictGet (update st r o s f).focus_area_effectiveness a
      = dictGet st.focus_area_effectiveness a + -(1/4) := by
  rw [update_focus_notGood _ _ _ _ _ hr, dictGet_foldl_const,
    List.count_eq_one_of_mem hf ha]
  norm_num

/-! ### Claims C1, C2, C10: the signed learning rule -/

/-- Claim C1: on a Good rating each extracted feature's value is added to
its pattern weight scaled by `rating_weight = +1`, and the style weight
and each focus-area weight gain `+1`; on a Bad rating the same updates
run with `rating_weight = -0.5` damped by a further `0.5`, so each
feature weight changes by `-0.25` times the feature value and each
style/focus weight changes by `-0.25`. -/
theorem rl_update_signed_learning_rule (st : AgentState) (o s : String)
    (f : List String) (hf : f.Nodup) :
    ((∀ p ∈ extract_text_patterns o,
        dictGet (update st "Good" o s f).pattern_weights p.1
          = dictGet st.pattern_weights p.1 + 1 * p.2) ∧
     dictGet (update st "Good" o s f).style_preferences s
        = dictGet st.style_preferences s + 1 ∧
     (∀ a ∈ f, dictGet (update st "Good" o s f).focus_area_effectiveness a
        = dictGet st.focus_area_effectiveness a + 1)) ∧
    ((∀ p ∈ extract_text_patterns o,
        dictGet (update st "Bad" o s f).pattern_weights p.1
          = dictGet st.pattern_weights p.1 + -(1/4) * p.2) ∧
     dictGet (update st "Bad" o s f).style_preferences s
        = dictGet st.style_preferences s + -(1/4) ∧
     (∀ a ∈ f, dictGet (update st "Bad" o s f).focus_area_effectiveness a
        = dictGet st.focus_area_effectiveness a + -(1/4))) := by
  refine ⟨⟨fun p hp => ?_, ?_, fun a ha => ?_⟩, fun p hp => ?_, ?_, fun a ha => ?_⟩
  · exact pattern_weight_good st o s f hp
  · exact style_weight_good st o s f
  · exact focus_weight_good st o s f hf ha
  · exact pattern_weight_notGood st "Bad" o s f (by decide) hp
  · exact style_weight_notGood st "Bad" o s f (by decide)
  · exact focus_weight_notGood st "Bad" o s f (by decide) hf ha

theorem rl_update_signed_learning_rule_witness :
    dictGet (update initialState "Good" "Hello." "modern" ["grammar"]).style_preferences
        "modern"
      = dictGet initialState.style_preferences "modern" + 1 :=
  (rl_update_signed_learning_rule initialState "Hello." "modern" ["grammar"]
    (by decide)).1.2.1

/-- Claim C2 as stated is false: starting from the empty state, a Good
update moves the style weight by `+1` while the same Bad update moves it
by `-1/4`, which is not `-1/2 · 1`. -/
theorem rl_bad_damping_half_cex :
    dictGet (update initialState "Good" "" "modern" []).style_preferences "modern"
        - dictGet initialState.style_preferences "modern" = 1 ∧
    dictGet (update initialState "Bad" "" "modern" []).style_preferences "modern"
        - dictGet initialState.style_preferences "modern" = -(1/4) ∧
    ¬ ((-(1/4) : ℚ) = -(1/2) * 1) := by
  refine ⟨?_, ?_, by norm_num⟩
  · rw [style_weight_good]
    ring
  · rw [style_weight_notGood _ _ _ _ _ (by decide)]
    ring

/-- Claim C2 amended: the change every weight undergoes on a Bad rating is
exactly **one quarter** of the change it undergoes on a Good rating on
the same inputs, with opposite sign. -/
theorem rl_bad_damping_quarter (st : AgentState) (o s : String)
    (f : List String) (k : String) :
    (dictGet (update st "Bad" o s f).pattern_weights k
        - dictGet st.pattern_weights k
      = -(1/4) * (dictGet (update st "Good" o s f).pattern_weights k
                   - dictGet st.pattern_weights k)) ∧
    (dictGet (update st "Bad" o s f).style_preferences k
        - dictGet st.style_preferences k
      = -(1/4) * (dictGet (update st "Good" o s f).style_preferences k
                   - dictGet st.style_preferences k)) ∧
    (dictGet (update st "Bad" o s f).focus_area_effectiveness k
        - dictGet st.focus_area_effectiveness k
      = -(1/4) * (dictGet (update st "Good" o s f).focus_area_effectiveness k
                   - dictGet st.focus_area_effectiveness k)) := by
  refine ⟨?_, ?_, ?_⟩
  · rw [update_pattern_weights_good,
      update_pattern_weights_notGood _ _ _ _ _ (by decide),
      dictGet_foldl_pairs (extract_text_patterns o) (fun v => 1 * v),
      dictGet_foldl_pairs (extract_text_patterns o) (fun v => -(1/2) * v * (1/2))]
    have h1 : (fun q : String × ℚ => -(1/2) * q.2 * (1/2))
        = (fun q : String × ℚ => -(1/4) * q.2) := funext fun q => by ring
    have h2 : (fun q : String × ℚ => 1 * q.2)
        = (fun q : String × ℚ => (1 : ℚ) * q.2) := rfl
    rw [h1, h2, sum_map_scaled, sum_map_scaled]
    ring
  · rw [update_style_preferences, update_style_preferences,
      if_neg (by decide), if_pos rfl]
    by_cases hk : k = s
    · subst hk
      rw [dictGet_dictAdd_self, dictGet_dictAdd_self]
      ring
    · rw [dictGet_dictAdd_ne _ _ _ _ hk, dictGet_dictAdd_ne _ _ _ _ hk]
      ring
  · rw [update_focus_good, update_focus_notGood _ _ _ _ _ (by decide),
      dictGet_foldl_const, dictGet_foldl_const]
    ring

/-- Claim C10: any rating other than `"Good"` — `"Bad"`, `"Okay"`, `""`,
anything — silently follows the Bad branch: the good counter is
unchanged, every weight moves by the damped `-0.25` amount, no success
snapshot is added, yet the record is appended and `total_feedback` is
incremented; the rating is never validated. -/
theorem rl_update_non_good_rating (st : AgentState) (r o s : String)
    (f : List String) (hr : ¬ r = "Good") (hf : f.Nodup)
    (hsp : st.successful_patterns.length ≤ 50)
    (hfh : st.feedback_history.length < 100) :
    (update st r o s f).good_feedback_count = st.good_feedback_count ∧
    (update st r o s f).total_feedback = st.total_feedback + 1 ∧
    (∀ p ∈ extract_text_patterns o,
        dictGet (update st r o s f).pattern_weights p.1
          = dictGet st.pattern_weights p.1 + -(1/4) * p.2) ∧
    dictGet (update st r o s f).style_preferences s
      = dictGet st.style_preferences s + -(1/4) ∧
    (∀ a ∈ f, dictGet (update st r o s f).focus_area_effectiveness a
        = dictGet st.focus_area_effectiveness a + -(1/4)) ∧
    (update st r o s f).successful_patterns = st.successful_patterns ∧
    (update st r o s f).feedback_history
      = st.feedback_history ++ [mkFeedbackRecord r o s f] := by
  refine ⟨?_, update_total_feedback st r o s f, fun p hp => ?_, ?_,
    fun a ha => ?_, ?_, ?_⟩
  · rw [update_good_count, if_neg hr]
    rfl
  · exact pattern_weight_notGood st r o s f hr hp
  · exact style_weight_notGood st r o s f hr
  · exact focus_weight_notGood st r o s f hr hf ha
  · rw [update_successful_notGood _ _ _ _ _ hr, if_neg (by omega)]
  · rw [update_feedback_history]
    show (if 100 < (st.feedback_history ++ [mkFeedbackRecord r o s f]).length
          then takeLast 100 (st.feedback_history ++ [mkFeedbackRecord r o s f])
          else st.feedback_history ++ [mkFeedbackRecord r o s f]) = _
    rw [if_neg (by simp; omega)]

theorem rl_update_non_good_rating_witness :
    (update initialState "Okay" "Hi." "modern" ["grammar"]).good_feedback_count
      = initialState.good_feedback_count :=
  (rl_update_non_good_rating initialState "Okay" "Hi." "modern" ["grammar"]
    (by decide) (by decide) (by decide) (by decide)).1

/-! ### Claims C7, C8: counter and history invariants -/

theorem counters_run (ops : List AgentOp) :
    ∀ (st : AgentState) (n : ℕ),
      st.good_feedback_count ≤ st.total_feedback →
      st.total_feedback = n →
      (ops.foldl applyOp st).good_feedback_count
          ≤ (ops.foldl applyOp st).total_feedback ∧
      (ops.foldl applyOp st).total_feedback
        = ops.foldl
            (fun m op => match op with | .updCall _ => m + 1 | .resetCall => 0) n := by
  induction ops with
  | nil => intro st n h1 h2; exact ⟨h1, h2⟩
  | cons op ops ih =>
    intro st n h1 h2
    rw [List.foldl_cons, List.foldl_cons]
    cases op with
    | updCall c =>
      refine ih _ (n + 1) ?_ ?_
      · show (update st c.rating c.output c.style c.focus).good_feedback_count
            ≤ (update st c.rating c.output c.style c.focus).total_feedback
        rw [update_good_count, update_total_feedback]
        by_cases hr : c.rating = "Good" <;> simp [hr] <;> omega
      · show (update st c.rating c.output c.style c.focus).total_feedback = n + 1
        rw [update_total_feedback, h2]
    | resetCall =>
      exact ih _ 0 (by simp [applyOp, reset_learning, initialState])
        (by simp [applyOp, reset_learning, initialState])

/-- Claim C7: after any sequence of `update`/`reset` calls,
`good_feedback ≤ total_feedback`, and `total_feedback` equals the number
of updates since the last reset; each `update` adds exactly 1 to
`total_feedback` and adds 1 to `good_feedback_count` iff the rating is
`"Good"`. -/
theorem rl_counters_invariant :
    (∀ ops : List AgentOp,
      (runOps ops).good_feedback_count ≤ (runOps ops).total_feedback ∧
      (runOps ops).total_feedback = updatesSinceReset ops) ∧
    (∀ (st : AgentState) (r o s : String) (f : List String),
      (update st r o s f).total_feedback = st.total_feedback + 1 ∧
      (update st r o s f).good_feedback_count
        = st.good_feedback_count + (if r = "Good" then 1 else 0)) := by
  constructor
  · intro ops
    exact counters_run ops initialState 0 (by decide) rfl
  · intro st r o s f
    exact ⟨update_total_feedback st r o s f, update_good_count st r o s f⟩

/-- Claim C8: `feedback_history` never exceeds 100 records and after 101
updates holds exactly the 100 most recent records in order (the oldest
is evicted); `successful_patterns` never exceeds 50 entries and every
entry is the snapshot of some Good-rated update of the sequence. -/
theorem rl_history_caps (cs : List UpdCall) :
    (runUpdates cs).feedback_history.length ≤ 100 ∧
    (cs.length = 101 →
      (runUpdates cs).feedback_history = (cs.map recordOf).drop 1) ∧
    (runUpdates cs).successful_patterns.length ≤ 50 ∧
    (∀ q ∈ (runUpdates cs).successful_patterns, q ∈ goodSnapshots cs) := by
  have hh : (runUpdates cs).feedback_history = takeLast 100 (cs.map recordOf) := by
    have := feedback_history_run cs initialState [] rfl
    simpa using this
  have hs : (runUpdates cs).successful_patterns = takeLast 50 (goodSnapshots cs) := by
    have := successful_patterns_run cs initialState [] rfl
    simpa using this
  refine ⟨?_, ?_, ?_, ?_⟩
  · rw [hh]; exact takeLast_length_le _ _
  · intro h101
    rw [hh, takeLast]
    congr 1
    rw [List.length_map, h101]
  · rw [hs]; exact takeLast_length_le _ _
  · intro q hq
    rw [hs, takeLast] at hq
    exact List.drop_subset _ _ hq

theorem rl_history_caps_witness :
    (runUpdates (List.replicate 101 goodCall)).feedback_history
      = ((List.replicate 101 goodCall).map recordOf).drop 1 ∧
    snapOf goodCall ∈ goodSnapshots [goodCall] :=
  ⟨(rl_history_caps (List.replicate 101 goodCall)).2.1 (by simp),
   (rl_history_caps [goodCall]).2.2.2 (snapOf goodCall) (by decide)⟩

/-! ### Claim C6: smart style suggestion -/

/-- Claim C6: with any feedback present, the style with the highest
cumulative weight is recommended only when that weight is strictly
positive (otherwise the default `"modern"` stands with confidence 0),
and the confidence is `min(best_weight / 5, 1)`; in particular with
weights `{"modern": 2, "classic": -1}` the result is `"modern"` with
confidence `2/5 = 0.4`. -/
theorem rl_smart_suggestions_style (st : AgentState)
    (h : 0 < st.total_feedback) :
    (∀ best, maxByVal st.style_preferences = some best →
      (0 < best.2 →
        (get_smart_suggestions st).recommended_style = best.1 ∧
        (get_smart_suggestions st).confidence_score = min (best.2 / 5) 1) ∧
      (¬ 0 < best.2 →
        (get_smart_suggestions st).recommended_style = "modern" ∧
        (get_smart_suggestions st).confidence_score = 0)) ∧
    ((get_smart_suggestions styleDemoState).recommended_style = "modern" ∧
     (get_smart_suggestions styleDemoState).confidence_score = 2/5) := by
  constructor
  · intro best hbest
    have h0 : ¬ st.total_feedback = 0 := by omega
    have hne : st.style_preferences.isEmpty = false := by
      cases hsp : st.style_preferences with
      | nil => rw [hsp] at hbest; exact absurd hbest (by simp [maxByVal])
      | cons x l => simp
    constructor
    · intro hpos
      simp [get_smart_suggestions, h0, hne, hbest, hpos]
      constructor <;> split_ifs <;> rfl
    · intro hpos
      simp [get_smart_suggestions, h0, hne, hbest, hpos]
      constructor <;> split_ifs <;> rfl
  · have hmax : maxByVal [(("modern" : String), (2 : ℚ)), ("classic", -1)]
        = some ("modern", 2) := by
      rw [maxByVal]
      norm_num
    constructor
    · simp [get_smart_suggestions, styleDemoState, initialState, hmax]
    · simp [get_smart_suggestions, styleDemoState, initialState, hmax]
      norm_num [min_def]

theorem rl_smart_suggestions_style_witness :
    (get_smart_suggestions styleDemoState).recommended_style = "modern" ∧
    (get_smart_suggestions styleDemoState).confidence_score = 2/5 :=
  (rl_smart_suggestions_style styleDemoState (by decide)).2

/-! ### Which lines each rule can emit -/

theorem styleLine_eq (s : String) : styleLine s = "Focus on " ++ s ++ styleLineTail :=
  rfl

/-- A style-rule line always contains the style-line tail, so it can
never coincide with a string that does not. -/
theorem styleLine_ne_of_tail_not_in {F : String}
    (h : ¬ (styleLineTail.data <:+: F.data)) (s : String) : styleLine s ≠ F := by
  intro he
  apply h
  rw [← he, styleLine_eq, String.data_append]
  exact (List.suffix_append _ _).isInfix

theorem mem_styleInstructions_shape {st : AgentState} {x : String}
    (h : x ∈ styleInstructions st) : ∃ s, x = styleLine s := by
  unfold styleInstructions at h
  split at h
  · exact absurd h (List.not_mem_nil x)
  · split at h
    · exact absurd h (List.not_mem_nil x)
    · split at h
      · exact ⟨_, List.mem_singleton.1 h⟩
      · exact absurd h (List.not_mem_nil x)

theorem mem_patternInstructions_shape {st : AgentState} {x : String}
    (h : x ∈ patternInstructions st) :
    x = sentenceLengthLine ∨ x = dialogueLine ∨ x = descriptiveLine ∨
      x = transitionLine := by
  simp only [patternInstructions] at h
  repeat' split at h
  all_goals
    first
      | exact absurd h (List.not_mem_nil x)
      | (rw [List.mem_singleton] at h; tauto)

theorem mem_focusInstructions_shape {st : AgentState} {a : String} {x : String}
    (h : x ∈ focusInstructions st a) :
    x = engagementLine ∨ x = styleFocusLine ∨ x = grammarLine ∨
      x = clarityLine ∨ x = flowLine := by
  simp only [focusInstructions] at h
  repeat' split at h
  all_goals
    first
      | exact absurd h (List.not_mem_nil x)
      | (simp only [List.mem_append, List.mem_singleton, List.not_mem_nil,
          or_false, false_or] at h; tauto)

theorem mem_successInstructions_shape {st : AgentState} {x : String}
    (h : x ∈ successInstructions st) :
    x = continueLine ∨ x = fundamentalsLine := by
  unfold successInstructions at h
  repeat' split at h
  all_goals
    first
      | exact absurd h (List.not_mem_nil x)
      | (rw [List.mem_singleton] at h; tauto)

theorem continueLine_mem_successInstructions (st : AgentState) :
    continueLine ∈ successInstructions st ↔ 70 < successRate st := by
  unfold successInstructions
  split_ifs with h1 h2
  · exact iff_of_true (List.mem_singleton.2 rfl) h1
  · refine iff_of_false (fun hm => ?_) h1
    rw [List.mem_singleton] at hm
    exact absurd hm (by decide)
  · exact iff_of_false (List.not_mem_nil _) h1

theorem fundamentalsLine_mem_successInstructions (st : AgentState) :
    fundamentalsLine ∈ successInstructions st ↔ successRate st < 50 := by
  unfold successInstructions
  split_ifs with h1 h2
  · refine iff_of_false (fun hm => ?_) (by push_neg; linarith)
    rw [List.mem_singleton] at hm
    exact absurd hm (by decide)
  · exact iff_of_true (List.mem_singleton.2 rfl) h2
  · exact iff_of_false (List.not_mem_nil _) h2

theorem mem_instructionList_iff (st : AgentState) (a x : String) :
    x ∈ instructionList st a ↔
      x ∈ styleInstructions st ∨ x ∈ patternInstructions st ∨
      x ∈ focusInstructions st a ∨ x ∈ successInstructions st := by
  simp [instructionList, List.mem_append, or_assoc]

/-! ### Claim C5: success-rate bands -/

/-- Claim C5: with at least 3 pieces of feedback, the output contains the
"continue current approach" line iff the success rate is strictly above
70 (70.0 exactly does not trigger it), contains the "focus on
fundamentals" line iff the rate is strictly below 50, and a rate in
[50, 70] yields neither; the output string is the joined instruction
list. -/
theorem rl_success_rate_bands (st : AgentState) (a : String)
    (h3 : 3 ≤ st.total_feedback) :
    (continueLine ∈ instructionList st a ↔ 70 < successRate st) ∧
    (fundamentalsLine ∈ instructionList st a ↔ successRate st < 50) ∧
    (50 ≤ successRate st → successRate st ≤ 70 →
      continueLine ∉ instructionList st a ∧
      fundamentalsLine ∉ instructionList st a) ∧
    get_adaptive_prompt_instructions st a
      = joinLines ((instructionList st a).map (fun i => "- " ++ i)) := by
  have hcont : continueLine ∈ instructionList st a ↔ 70 < successRate st := by
    rw [mem_instructionList_iff]
    constructor
    · rintro (h | h | h | h)
      · obtain ⟨s, hs⟩ := mem_styleInstructions_shape h
        exact absurd hs.symm (styleLine_ne_of_tail_not_in (by decide) s)
      · rcases mem_patternInstructions_shape h with h | h | h | h <;>
          exact absurd h (by decide)
      · rcases mem_focusInstructions_shape h with h | h | h | h | h <;>
          exact absurd h (by decide)
      · exact (continueLine_mem_successInstructions st).1 h
    · intro hrate
      exact Or.inr (Or.inr (Or.inr
        ((continueLine_mem_successInstructions st).2 hrate)))
  have hfund : fundamentalsLine ∈ instructionList st a ↔ successRate st < 50 := by
    rw [mem_instructionList_iff]
    constructor
    · rintro (h | h | h | h)
      · obtain ⟨s, hs⟩ := mem_styleInstructions_shape h
        exact absurd hs.symm (styleLine_ne_of_tail_not_in (by decide) s)
      · rcases mem_patternInstructions_shape h with h | h | h | h <;>
          exact absurd h (by decide)
      · rcases mem_focusInstructions_shape h with h | h | h | h | h <;>
          exact absurd h (by decide)
      · exact (fundamentalsLine_mem_successInstructions st).1 h
    · intro hrate
      exact Or.inr (Or.inr (Or.inr
        ((fundamentalsLine_mem_successInstructions st).2 hrate)))
  refine ⟨hcont, hfund, fun h50 h70 => ⟨fun hc => ?_, fun hf => ?_⟩, ?_⟩
  · have := hcont.1 hc
    linarith
  · have := hfund.1 hf
    linarith
  · rw [get_adaptive_prompt_instructions, if_neg (by omega)]

theorem rl_success_rate_bands_witness :
    continueLine ∉ instructionList bandDemoState "writer" ∧
    fundamentalsLine ∉ instructionList bandDemoState "writer" :=
  (rl_success_rate_bands bandDemoState "writer" (by decide)).2.2.1
    (by norm_num [successRate, bandDemoState, initialState])
    (by norm_num [successRate, bandDemoState, initialState])

/-! ### Claim C4: the minimum-evidence gate -/

/-- A line of the instruction list occurs inside the joined output. -/
theorem infix_joinLines {sub x : String} {l : List String} (hx : x ∈ l)
    (h : sub.data <:+: x.data) : sub.data <:+: (joinLines l).data := by
  induction l with
  | nil => cases hx
  | cons y ys ih =>
    rcases List.mem_cons.1 hx with rfl | hmem
    · cases ys with
      | nil => simpa [joinLines] using h
      | cons z zs =>
        rw [joinLines]
        refine h.trans ?_
        rw [String.data_append, String.data_append, List.append_assoc]
        exact (List.prefix_append _ _).isInfix
    · cases ys with
      | nil => cases hmem
      | cons z zs =>
        rw [joinLines]
        refine (ih hmem).trans ?_
        rw [String.data_append]
        exact (List.suffix_append _ _).isInfix

theorem threeGoodClassic_total (o1 o2 o3 : String) :
    (threeGoodClassic o1 o2 o3).total_feedback = 3 := by
  simp [threeGoodClassic, update_total_feedback, initialState]

theorem threeGoodClassic_styles (o1 o2 o3 : String) :
    (threeGoodClassic o1 o2 o3).style_preferences = [("classic", 3)] := by
  simp only [threeGoodClassic, update_style_preferences, if_pos]
  norm_num [dictAdd, initialState]

theorem threeGoodClassic_styleSeg (o1 o2 o3 : String) :
    styleInstructions (threeGoodClassic o1 o2 o3) = [styleLine "classic"] := by
  rw [styleInstructions, threeGoodClassic_styles]
  norm_num [maxByVal]

/-- Claim C4: `get_adaptive_prompt_instructions` is the empty string
whenever `total_feedback < 3`, for every agent type; after exactly three
Good updates with style "classic" and focus area "grammar" it is a
non-empty string containing "classic". -/
theorem rl_adaptive_gate :
    (∀ (st : AgentState) (a : String),
      st.total_feedback < 3 → get_adaptive_prompt_instructions st a = "") ∧
    (∀ (a o1 o2 o3 : String),
      get_adaptive_prompt_instructions (threeGoodClassic o1 o2 o3) a ≠ "" ∧
      strContains (get_adaptive_prompt_instructions (threeGoodClassic o1 o2 o3) a)
        "classic") := by
  constructor
  · intro st a h
    rw [get_adaptive_prompt_instructions, if_pos h]
  · intro a o1 o2 o3
    have hmem : styleLine "classic" ∈ instructionList (threeGoodClassic o1 o2 o3) a := by
      rw [mem_instructionList_iff]
      exact Or.inl (by rw [threeGoodClassic_styleSeg]; exact List.mem_singleton.2 rfl)
    have hout : get_adaptive_prompt_instructions (threeGoodClassic o1 o2 o3) a
        = joinLines ((instructionList (threeGoodClassic o1 o2 o3) a).map
            (fun i => "- " ++ i)) := by
      rw [get_adaptive_prompt_instructions,
        if_neg (by rw [threeGoodClassic_total]; omega)]
    have hmem2 : ("- " ++ styleLine "classic")
        ∈ (instructionList (threeGoodClassic o1 o2 o3) a).map (fun i => "- " ++ i) :=
      List.mem_map_of_mem _ hmem
    have hinf : "classic".data <:+: ("- " ++ styleLine "classic").data := by decide
    have hcontain : strContains
        (get_adaptive_prompt_instructions (threeGoodClassic o1 o2 o3) a) "classic" := by
      rw [strContains, hout]
      exact infix_joinLines hmem2 hinf
    refine ⟨fun he => ?_, hcontain⟩
    rw [strContains, he] at hcontain
    have := hcontain.length_le
    simp at this

theorem rl_adaptive_gate_witness :
    get_adaptive_prompt_instructions initialState "writer" = "" ∧
    get_adaptive_prompt_instructions (threeGoodClassic "" "" "") "writer" ≠ "" :=
  ⟨rl_adaptive_gate.1 initialState "writer" (by decide),
   (rl_adaptive_gate.2 "writer" "" "" "").1⟩

/-! ### Claim C3: the pattern rule consults only the global top pattern -/

theorem patternInstructions_eq_of_head (st : AgentState) {top : String × ℚ}
    (htop : (sortDescByVal (st.pattern_weights.filter (fun p => 0 < p.2))).head?
      = some top) :
    patternInstructions st =
      (if top.1 = "avg_sentence_length" then
        (if 2 < top.2 then [sentenceLengthLine] else [])
      else if top.1 = "dialogue_density" then
        (if 1 < top.2 then [dialogueLine] else [])
      else if top.1 = "descriptive_density" then
        (if 1 < top.2 then [descriptiveLine] else [])
      else if top.1 = "transition_density" then
        (if 1 < top.2 then [transitionLine] else [])
      else []) := by
  have hne : st.pattern_weights.isEmpty = false := by
    cases hpw : st.pattern_weights with
    | nil => rw [hpw] at htop; simp [sortDescByVal] at htop
    | cons x l => simp
  have hposne : (st.pattern_weights.filter (fun p => 0 < p.2)).isEmpty = false := by
    cases hf : st.pattern_weights.filter (fun p => 0 < p.2) with
    | nil => rw [hf] at htop; simp [sortDescByVal] at htop
    | cons x l => simp
  simp only [patternInstructions, hne, hposne, Bool.false_eq_true, if_false, htop]

/-- Membership in the full instruction list of a string that no other
rule can emit reduces to membership in the pattern-rule segment. -/
theorem mem_instructionList_pattern (st : AgentState) (a : String) {x : String}
    (hsty : ¬ (styleLineTail.data <:+: x.data))
    (hfoc : x ≠ engagementLine ∧ x ≠ styleFocusLine ∧ x ≠ grammarLine ∧
      x ≠ clarityLine ∧ x ≠ flowLine)
    (hsuc : x ≠ continueLine ∧ x ≠ fundamentalsLine) :
    (x ∈ instructionList st a ↔ x ∈ patternInstructions st) := by
  rw [mem_instructionList_iff]
  constructor
  · rintro (h | h | h | h)
    · obtain ⟨s, hs⟩ := mem_styleInstructions_shape h
      exact absurd hs.symm (styleLine_ne_of_tail_not_in hsty s)
    · exact h
    · rcases mem_focusInstructions_shape h with h | h | h | h | h <;> tauto
    · rcases mem_successInstructions_shape h with h | h <;> tauto
  · exact fun h => Or.inr (Or.inl h)

/-- Claim C3 as stated is false: in `patternDemoState`,
`avg_sentence_length` is the top-weighted feature among the four known
names (weight 5 > 2, the others 0), `total_feedback ≥ 3`, yet its canned
instruction is NOT produced, because the globally top positive feature
is `complexity_score`, which matches no branch. -/
theorem rl_pattern_rule_known_feature_cex :
    3 ≤ patternDemoState.total_feedback ∧
    dictGet patternDemoState.pattern_weights "avg_sentence_length" = 5 ∧
    (2 : ℚ) < dictGet patternDemoState.pattern_weights "avg_sentence_length" ∧
    dictGet patternDemoState.pattern_weights "dialogue_density" = 0 ∧
    dictGet patternDemoState.pattern_weights "descriptive_density" = 0 ∧
    dictGet patternDemoState.pattern_weights "transition_density" = 0 ∧
    sentenceLengthLine ∉ instructionList patternDemoState "writer" := by
  have hhead : (sortDescByVal
      (patternDemoState.pattern_weights.filter (fun p => 0 < p.2))).head?
      = some ("complexity_score", 10) := by
    show (sortDescByVal
      ([(("complexity_score" : String), (10 : ℚ)),
        ("avg_sentence_length", 5)].filter (fun p => 0 < p.2))).head? = _
    norm_num [sortDescByVal, insertDesc]
  have hpat : patternInstructions patternDemoState = [] := by
    rw [patternInstructions_eq_of_head patternDemoState hhead]
    norm_num
    decide
  refine ⟨by decide, by decide, by decide, by decide, by decide, by decide, ?_⟩
  rw [mem_instructionList_pattern patternDemoState "writer" (by decide)
    ⟨by decide, by decide, by decide, by decide, by decide⟩ ⟨by decide, by decide⟩,
    hpat]
  exact List.not_mem_nil _

/-- Claim C3 amended: the pattern rule consults only the single
top-weighted positive pattern overall (first of the stable descending
sort): its canned instruction appears iff that global top is the given
known feature name and exceeds its threshold; when the global top is not
one of the four known names — e.g. when `complexity_score` or
`avg_paragraph_length` carries the highest positive weight — the rule
contributes nothing, regardless of the weights of the known features. -/
theorem rl_pattern_rule_top_only (st : AgentState) (a : String)
    (h3 : 3 ≤ st.total_feedback) :
    (∀ top : String × ℚ,
      (sortDescByVal (st.pattern_weights.filter (fun p => 0 < p.2))).head?
          = some top →
      ((sentenceLengthLine ∈ instructionList st a ↔
          top.1 = "avg_sentence_length" ∧ 2 < top.2) ∧
       (dialogueLine ∈ instructionList st a ↔
          top.1 = "dialogue_density" ∧ 1 < top.2) ∧
       (descriptiveLine ∈ instructionList st a ↔
          top.1 = "descriptive_density" ∧ 1 < top.2) ∧
       (transitionLine ∈ instructionList st a ↔
          top.1 = "transition_density" ∧ 1 < top.2)) ∧
      (top.1 ∉ (["avg_sentence_length", "dialogue_density",
          "descriptive_density", "transition_density"] : List String) →
        patternInstructions st = [])) ∧
    ((st.pattern_weights.filter (fun p => 0 < p.2)) = [] →
      patternInstructions st = []) ∧
    get_adaptive_prompt_instructions st a
      = joinLines ((instructionList st a).map (fun i => "- " ++ i)) := by
  refine ⟨fun top htop => ⟨⟨?_, ?_, ?_, ?_⟩, ?_⟩, ?_, ?_⟩
  · rw [mem_instructionList_pattern st a (by decide)
      ⟨by decide, by decide, by decide, by decide, by decide⟩
      ⟨by decide, by decide⟩, patternInstructions_eq_of_head st htop]
    split_ifs <;>
      simp_all [sentenceLengthLine, dialogueLine, descriptiveLine, transitionLine]
  · rw [mem_instructionList_pattern st a (by decide)
      ⟨by decide, by decide, by decide, by decide, by decide⟩
      ⟨by decide, by decide⟩, patternInstructions_eq_of_head st htop]
    split_ifs <;>
      simp_all [sentenceLengthLine, dialogueLine, descriptiveLine, transitionLine]
  · rw [mem_instructionList_pattern st a (by decide)
      ⟨by decide, by decide, by decide, by decide, by decide⟩
      ⟨by decide, by decide⟩, patternInstructions_eq_of_head st htop]
    split_ifs <;>
      simp_all [sentenceLengthLine, dialogueLine, descriptiveLine, transitionLine]
  · rw [mem_instructionList_pattern st a (by decide)
      ⟨by decide, by decide, by decide, by decide, by decide⟩
      ⟨by decide, by decide⟩, patternInstructions_eq_of_head st htop]
    split_ifs <;>
      simp_all [sentenceLengthLine, dialogueLine, descriptiveLine, transitionLine]
  · intro hnot
    simp only [List.mem_cons, List.not_mem_nil, or_false] at hnot
    push_neg at hnot
    obtain ⟨hn1, hn2, hn3, hn4⟩ := hnot
    rw [patternInstructions_eq_of_head st htop, if_neg hn1, if_neg hn2,
      if_neg hn3, if_neg hn4]
  · intro hf
    by_cases hne : st.pattern_weights.isEmpty
    · simp [patternInstructions, hne]
    · simp [patternInstructions, hne, hf]
  · rw [get_adaptive_prompt_instructions, if_neg (by omega)]

theorem rl_pattern_rule_top_only_witness :
    sentenceLengthLine ∈ instructionList sentenceDemoState "writer" ↔
      (("avg_sentence_length", (5 : ℚ)).1 = "avg_sentence_length" ∧
        2 < (("avg_sentence_length", (5 : ℚ))).2) :=
  (((rl_pattern_rule_top_only sentenceDemoState "writer" (by decide)).1
    ("avg_sentence_length", 5)
    (by show (sortDescByVal ([(("avg_sentence_length" : String), (5 : ℚ))].filter
          (fun p => 0 < p.2))).head? = _
        norm_num [sortDescByVal, insertDesc])).1).1

/-! ### Claim C9: totality of the extractor -/

theorem splitChars_ne_nil (p : Char → Bool) (l : List Char) :
    splitChars p l ≠ [] := by
  induction l with
  | nil => simp [splitChars]
  | cons c rest ih =>
    cases h : splitChars p rest with
    | nil => exact absurd h ih
    | cons s ss =>
      simp only [splitChars, h]
      split <;> simp

/-- Every character of a chunk of `splitChars` is a non-separator
character of the input. -/
theorem splitChars_mem {p : Char → Bool} {c : Char} :
    ∀ {l s : List Char}, s ∈ splitChars p l → c ∈ s → c ∈ l ∧ p c = false := by
  intro l
  induction l with
  | nil =>
    intro s hs hc
    simp [splitChars] at hs
    subst hs
    cases hc
  | cons a rest ih =>
    intro s hs hc
    cases h : splitChars p rest with
    | nil => exact absurd h (splitChars_ne_nil p rest)
    | cons s' ss' =>
      simp only [splitChars, h] at hs
      by_cases hp : p a = true
      · rw [if_pos hp] at hs
        rcases List.mem_cons.1 hs with rfl | hs'
        · cases hc
        · have hr := ih (by rw [h]; exact hs') hc
          exact ⟨List.mem_cons_of_mem a hr.1, hr.2⟩
      · rw [if_neg hp] at hs
        rcases List.mem_cons.1 hs with rfl | hs'
        · rcases List.mem_cons.1 hc with rfl | hc'
          · exact ⟨List.mem_cons_self _ _, by simpa using hp⟩
          · have hr := ih (by rw [h]; exact List.mem_cons_self s' ss') hc'
            exact ⟨List.mem_cons_of_mem a hr.1, hr.2⟩
        · have hr := ih (by rw [h]; exact List.mem_cons_of_mem s' hs') hc
          exact ⟨List.mem_cons_of_mem a hr.1, hr.2⟩

/-- Every non-separator character of the input lands in some chunk. -/
theorem splitChars_covers {p : Char → Bool} {c : Char} (hpc : p c = false) :
    ∀ {l : List Char}, c ∈ l → ∃ s ∈ splitChars p l, c ∈ s := by
  intro l
  induction l with
  | nil => intro hc; cases hc
  | cons a rest ih =>
    intro hc
    cases h : splitChars p rest with
    | nil => exact absurd h (splitChars_ne_nil p rest)
    | cons s' ss' =>
      simp only [splitChars, h]
      by_cases hp : p a = true
      · rw [if_pos hp]
        rcases List.mem_cons.1 hc with rfl | hc'
        · rw [hp] at hpc; cases hpc
        · obtain ⟨s, hs, hcs⟩ := ih hc'
          rw [h] at hs
          exact ⟨s, List.mem_cons_of_mem _ hs, hcs⟩
      · rw [if_neg hp]
        rcases List.mem_cons.1 hc with rfl | hc'
        · exact ⟨c :: s', List.mem_cons_self _ _, List.mem_cons_self _ _⟩
        · obtain ⟨s, hs, hcs⟩ := ih hc'
          rw [h] at hs
          rcases List.mem_cons.1 hs with rfl | hs'
          · exact ⟨a :: s, List.mem_cons_self _ _, List.mem_cons_of_mem _ hcs⟩
          · exact ⟨s, List.mem_cons_of_mem _ hs', hcs⟩

theorem splitParagraphs_ne_nil (l : List Char) : splitParagraphs l ≠ [] := by
  induction l using splitParagraphs.induct with
  | case1 => simp [splitParagraphs]
  | case2 rest ih => rw [splitParagraphs.eq_2]; simp
  | case3 c rest h heq ih => exact absurd heq ih
  | case4 c rest h s ss hsp ih => rw [splitParagraphs.eq_3 c rest h, hsp]; simp

/-- Every non-newline character of the input lands in some paragraph. -/
theorem splitParagraphs_covers {c : Char} (hcn : ¬ c = '\n') :
    ∀ l : List Char, c ∈ l → ∃ s ∈ splitParagraphs l, c ∈ s := by
  intro l
  induction l using splitParagraphs.induct with
  | case1 => intro hc; cases hc
  | case2 rest ih =>
    intro hc
    rcases List.mem_cons.1 hc with rfl | hc'
    · exact absurd rfl hcn
    rcases List.mem_cons.1 hc' with rfl | hc''
    · exact absurd rfl hcn
    obtain ⟨s, hs, hcs⟩ := ih hc''
    exact ⟨s, by rw [splitParagraphs.eq_2]; exact List.mem_cons_of_mem _ hs, hcs⟩
  | case3 c' rest h heq ih => exact absurd heq (splitParagraphs_ne_nil rest)
  | case4 c' rest h s ss hsp ih =>
    intro hc
    rw [splitParagraphs.eq_3 c' rest h, hsp]
    rcases List.mem_cons.1 hc with rfl | hc'
    · exact ⟨c :: s, List.mem_cons_self _ _, List.mem_cons_self _ _⟩
    · obtain ⟨s', hs', hcs'⟩ := ih hc'
      rw [hsp] at hs'
      rcases List.mem_cons.1 hs' with rfl | hs''
      · exact ⟨c' :: s', List.mem_cons_self _ _, List.mem_cons_of_mem _ hcs'⟩
      · exact ⟨s', List.mem_cons_of_mem _ hs'', hcs'⟩

theorem dropWhile_head_false {p : Char → Bool} :
    ∀ {l t : List Char} {c : Char}, l.dropWhile p = c :: t → p c = false := by
  intro l
  induction l with
  | nil => intro t c h; simp [List.dropWhile] at h
  | cons a rest ih =>
    intro t c h
    by_cases hp : p a = true
    · rw [List.dropWhile_cons, if_pos hp] at h
      exact ih h
    · rw [List.dropWhile_cons, if_neg hp] at h
      obtain ⟨rfl, -⟩ := List.cons.injEq .. ▸ h
      simpa using hp

theorem pyStrip_subset (l : List Char) : pyStrip l ⊆ l := by
  intro c hc
  rw [pyStrip, List.mem_reverse] at hc
  have h1 := List.Sublist.subset (List.dropWhile_sublist isPySpace) hc
  rw [List.mem_reverse] at h1
  exact List.Sublist.subset (List.dropWhile_sublist isPySpace) h1

theorem pyStrip_has_nonspace {l : List Char} (h : pyStrip l ≠ []) :
    ∃ c ∈ pyStrip l, isPySpace c = false := by
  cases hd : (l.dropWhile isPySpace).reverse.dropWhile isPySpace with
  | nil => rw [pyStrip, hd] at h; simp at h
  | cons c t =>
    refine ⟨c, ?_, dropWhile_head_false hd⟩
    rw [pyStrip, hd, List.mem_reverse]
    exact List.mem_cons_self _ _

theorem pyStrip_ne_nil_of_mem {l : List Char} {c : Char} (hc : c ∈ l)
    (hns : isPySpace c = false) : pyStrip l ≠ [] := by
  intro hnil
  rw [pyStrip, List.reverse_eq_nil_iff] at hnil
  have h2 := List.dropWhile_eq_nil_iff.1 hnil
  have hsplit : c ∈ l.takeWhile isPySpace ++ l.dropWhile isPySpace := by
    rw [List.takeWhile_append_dropWhile]
    exact hc
  rcases List.mem_append.1 hsplit with h | h
  · have := List.mem_takeWhile_imp h
    rw [hns] at this
    cases this
  · have := h2 c (List.mem_reverse.2 h)
    rw [hns] at this
    cases this

/-- A non-empty sentence list means the text has a character that is
neither whitespace nor a sentence terminator. -/
theorem sentencesOf_ne_nil_elim {l : List Char} (h : sentencesOf l ≠ []) :
    ∃ c ∈ l, isPySpace c = false ∧ isSentenceEnd c = false := by
  rw [sentencesOf] at h
  obtain ⟨s, hs, hne⟩ : ∃ s ∈ (splitChars isSentenceEnd l).map pyStrip,
      (!s.isEmpty) = true := by
    rcases hfe : ((splitChars isSentenceEnd l).map pyStrip).filter
        (fun s => !s.isEmpty) with _ | ⟨s, ss⟩
    · exact absurd hfe h
    · have hmem : s ∈ ((splitChars isSentenceEnd l).map pyStrip).filter
          (fun s => !s.isEmpty) := by
        rw [hfe]
        exact List.mem_cons_self _ _
      exact ⟨s, (List.mem_filter.1 hmem).1, (List.mem_filter.1 hmem).2⟩
  obtain ⟨chunk, hchunk, rfl⟩ := List.mem_map.1 hs
  have hsne : pyStrip chunk ≠ [] := by simpa using hne
  obtain ⟨c, hcs, hcns⟩ := pyStrip_has_nonspace hsne
  have hcchunk : c ∈ chunk := pyStrip_subset chunk hcs
  have hm := splitChars_mem hchunk hcchunk
  exact ⟨c, hm.1, hcns, hm.2⟩

theorem pyWords_ne_nil {l : List Char} {c : Char} (hc : c ∈ l)
    (hns : isPySpace c = false) : pyWords l ≠ [] := by
  obtain ⟨s, hs, hcs⟩ := splitChars_covers hns hc
  rw [pyWords]
  intro hnil
  have hmem : s ∈ (splitChars isPySpace l).filter (fun w => !w.isEmpty) :=
    List.mem_filter.2 ⟨hs, by simp [List.isEmpty_iff]; exact List.ne_nil_of_mem hcs⟩
  rw [hnil] at hmem
  cases hmem

theorem paragraphWordCounts_ne_nil {l : List Char} {c : Char} (hc : c ∈ l)
    (hns : isPySpace c = false) : paragraphWordCounts l ≠ [] := by
  have hcn : ¬ c = '\n' := by
    intro hce
    subst hce
    simp [isPySpace] at hns
  obtain ⟨s, hs, hcs⟩ := splitParagraphs_covers hcn l hc
  rw [paragraphWordCounts]
  intro hnil
  rw [List.map_eq_nil_iff] at hnil
  have hmem : s ∈ (splitParagraphs l).filter (fun p => !(pyStrip p).isEmpty) :=
    List.mem_filter.2 ⟨hs, by
      simp [List.isEmpty_iff]
      exact pyStrip_ne_nil_of_mem hcs hns⟩
  rw [hnil] at hmem
  cases hmem

/-- Claim C9: `extract_text_patterns` on the empty string is the empty
map; on a single quote-free, keyword-free sentence both
`dialogue_density` and `transition_density` are 0; the extraction is
total: when there are no sentences the map is empty (every guard
defaults its ratio to 0), and when there are sentences every denominator
the code divides by — the sentence list, the word list, and the
non-blank paragraph list — is non-empty, so no division by zero can
occur on any input string. -/
theorem rl_extract_totality :
    extract_text_patterns "" = [] ∧
    (dictGet (extract_text_patterns "The quick brown fox jumps over a lazy dog")
        "dialogue_density" = 0 ∧
     dictGet (extract_text_patterns "The quick brown fox jumps over a lazy dog")
        "transition_density" = 0) ∧
    (∀ text : String, sentencesOf text.data = [] →
      extract_text_patterns text = []) ∧
    (∀ text : String, sentencesOf text.data ≠ [] →
      0 < (sentencesOf text.data).length ∧
      0 < (pyWords text.data).length ∧
      0 < (paragraphWordCounts text.data).length) := by
  have hsent : sentencesOf ("The quick brown fox jumps over a lazy dog").data
      = [("The quick brown fox jumps over a lazy dog").data] := by decide
  refine ⟨by decide, ⟨?_, ?_⟩, fun text h => ?_, fun text h => ?_⟩
  · have hdc : dialogueCount ("The quick brown fox jumps over a lazy dog").data
        = 0 := by decide
    rw [extract_text_patterns]
    simp [hsent, dictGet, hdc]
  · have htc : vocabCount transitionVocab
        ("The quick brown fox jumps over a lazy dog").data = 0 := by decide
    rw [extract_text_patterns]
    simp [hsent, dictGet, htc]
  · simp [extract_text_patterns, h]
  · obtain ⟨c, hc, hns, -⟩ := sentencesOf_ne_nil_elim h
    exact ⟨List.length_pos.2 h, List.length_pos.2 (pyWords_ne_nil hc hns),
      List.length_pos.2 (paragraphWordCounts_ne_nil hc hns)⟩

theorem rl_extract_totality_witness :
    extract_text_patterns "" = [] ∧
    (0 < (sentencesOf ("Hi").data).length ∧
     0 < (pyWords ("Hi").data).length ∧
     0 < (paragraphWordCounts ("Hi").data).length) :=
  ⟨rl_extract_totality.2.2.1 "" (by decide),
   rl_extract_totality.2.2.2 "Hi" (by decide)⟩
